import Mathlib

set_option maxHeartbeats 1000000
set_option maxRecDepth 100000

/-!
Shallow embedding of `src/modulo4_horarios.py` (daily transit schedule
generator).  Python `datetime` values are modelled as integers counting
microseconds since an epoch midnight; Python `time` values as integers
counting microseconds since midnight; demand scores as rationals.  The
per-route `while` loop is modelled with explicit fuel: `LoopOut.more`
means the fuel ran out while the loop guard was still true, so genuine
termination of the Python loop is `∃ fuel, result ≠ more`.
-/

namespace Horarios

def usPerSecond : Int := 1000000

def usPerMinute : Int := 60000000

def usPerHour : Int := 3600000000

def usPerDay : Int := 86400000000

/-- A Python `datetime`: microseconds since the epoch midnight. -/
abbrev DTime := Int

/-- `dt.time()` as microseconds since midnight (Python `time` ordering is
componentwise lexicographic, which coincides with this count). -/
def dtTime (dt : DTime) : Int := dt % usPerDay

/-- `dt.hour` (0..23). -/
def dtHour (dt : DTime) : Int := dt % usPerDay / usPerHour

/-- `dt.minute` (0..59). -/
def dtMinute (dt : DTime) : Int := dt % usPerHour / usPerMinute

/-- `dt.second` (0..59). -/
def dtSecond (dt : DTime) : Int := dt % usPerMinute / usPerSecond

/-- `dt.microsecond`. -/
def dtMicrosecond (dt : DTime) : Int := dt % usPerSecond

/-- `datetime.combine(service_day, t)`. -/
def combine (day : Int) (t : Int) : DTime := day * usPerDay + t

/-- `ServiceWindow` from the source: `start` and `end` are times of day
(microseconds since midnight). -/
structure ServiceWindow where
  start : Int
  «end» : Int
deriving DecidableEq

/-- `ServiceWindow.contains`: `self.start <= dt.time() <= self.end`. -/
def ServiceWindow.contains (w : ServiceWindow) (dt : DTime) : Prop :=
  w.start ≤ dtTime dt ∧ dtTime dt ≤ w.«end»

/-- `ScheduleOptions` from the source. -/
structure ScheduleOptions where
  service_window : ServiceWindow
  fixed_headway_min : Option Int
  round_to_minutes : Option Int
deriving DecidableEq

/-- `_round_dt`: flooring `dt` down by discarding `minute % g` minutes plus
the seconds and microseconds; `None`, `0`, or any `g <= 1` is a no-op
(`if not round_to_minutes or round_to_minutes <= 1`). -/
def round_dt (dt : DTime) (round_to_minutes : Option Int) : DTime :=
  match round_to_minutes with
  | none => dt
  | some g =>
    if g ≤ 1 then dt
    else dt - ((dtMinute dt % g) * usPerMinute + dtSecond dt * usPerSecond + dtMicrosecond dt)

/-- The guarded re-rounding after each advance (`if options.round_to_minutes:`
is Python truthiness, skipping `None` and `0` before calling `_round_dt`). -/
def stepRound (dt : DTime) (round_to_minutes : Option Int) : DTime :=
  match round_to_minutes with
  | none => dt
  | some g => if g = 0 then dt else round_dt dt (some g)

/-- `SimpleDemandByHour`: an hour-of-day table plus fallback base score. -/
structure SimpleDemandByHour where
  by_hour : List (Int × ℚ)
  base : ℚ
deriving DecidableEq

/-- The default hour table filled in by `__post_init__` when `by_hour is None`. -/
def defaultByHour : List (Int × ℚ) :=
  [(0, mkRat 25 100), (1, mkRat 25 100), (2, mkRat 25 100), (3, mkRat 25 100), (4, mkRat 25 100),
   (5, mkRat 60 100), (6, mkRat 60 100),
   (7, mkRat 90 100), (8, mkRat 90 100),
   (9, mkRat 50 100), (10, mkRat 50 100), (11, mkRat 50 100),
   (12, mkRat 70 100), (13, mkRat 70 100),
   (14, mkRat 55 100), (15, mkRat 55 100), (16, mkRat 55 100),
   (17, mkRat 95 100), (18, mkRat 95 100), (19, mkRat 95 100),
   (20, mkRat 40 100), (21, mkRat 40 100), (22, mkRat 40 100), (23, mkRat 40 100)]

/-- Constructing a `SimpleDemandByHour` (dataclass init + `__post_init__`). -/
def mkSimpleDemandByHour (by_hour : Option (List (Int × ℚ))) (base : ℚ) : SimpleDemandByHour :=
  ⟨by_hour.getD defaultByHour, base⟩

/-- `SimpleDemandByHour()` with all defaults. -/
def defaultDemand : SimpleDemandByHour := mkSimpleDemandByHour none (mkRat 40 100)

/-- `get_demand_score`: table lookup by `at.hour` with fallback `base`,
clamped into [0, 1] on read. -/
def SimpleDemandByHour.get_demand_score (d : SimpleDemandByHour) (route_name : String)
    (t : DTime) : ℚ :=
  max 0 (min 1 ((d.by_hour.lookup (dtHour t)).getD d.base))

/-- Descending-by-threshold ordering used by `__post_init__`'s
`sort(key=lambda x: x[0], reverse=True)`. -/
def thrGT (a b : ℚ × Int) : Prop := b.1 < a.1

instance : DecidableRel thrGT := fun a b => inferInstanceAs (Decidable (b.1 < a.1))

/-- Stable descending sort of the threshold table (Python `list.sort` is
stable; `reverse=True` keeps equal keys in original order). -/
def sortThresholdsDesc (l : List (ℚ × Int)) : List (ℚ × Int) := l.insertionSort thrGT

/-- `ThresholdHeadwayPolicy` after `__post_init__` (table sorted descending). -/
structure ThresholdHeadwayPolicy where
  thresholds : List (ℚ × Int)
  min_headway : Int
  max_headway : Int
deriving DecidableEq

/-- The default `(threshold, headway)` table. -/
def defaultThresholds : List (ℚ × Int) :=
  [(mkRat 85 100, 8), (mkRat 70 100, 10), (mkRat 50 100, 15), (mkRat 30 100, 20), (mkRat 0 100, 30)]

/-- Constructing a `ThresholdHeadwayPolicy` (dataclass init + `__post_init__`). -/
def mkThresholdHeadwayPolicy (thresholds : Option (List (ℚ × Int)))
    (min_headway max_headway : Int) : ThresholdHeadwayPolicy :=
  ⟨sortThresholdsDesc (thresholds.getD defaultThresholds), min_headway, max_headway⟩

/-- `ThresholdHeadwayPolicy()` with all defaults. -/
def defaultPolicy : ThresholdHeadwayPolicy := mkThresholdHeadwayPolicy none 6 60

/-- `int(max(self.min_headway, min(self.max_headway, hw)))`. -/
def clampHeadway (minH maxH hw : Int) : Int := max minH (min maxH hw)

/-- The `for thr, hw in self.thresholds` scan: first entry whose threshold the
score meets (`demand_score >= thr`), clamped. -/
def scanThresholds (minH maxH : Int) (s : ℚ) : List (ℚ × Int) → Option Int
  | [] => none
  | (thr, hw) :: rest =>
    if thr ≤ s then some (clampHeadway minH maxH hw) else scanThresholds minH maxH s rest

/-- `get_headway_minutes`: scan, falling back to the clamped last entry
`self.thresholds[-1][1]`; `none` models the `IndexError` raised when the
table is empty and nothing matched. -/
def ThresholdHeadwayPolicy.get_headway_minutes (p : ThresholdHeadwayPolicy)
    (route_name : String) (t : DTime) (demand_score : ℚ) : Option Int :=
  match scanThresholds p.min_headway p.max_headway demand_score p.thresholds with
  | some h => some h
  | none => p.thresholds.getLast?.map (fun e => clampHeadway p.min_headway p.max_headway e.2)

/-- A demand provider, as the `DemandProvider` protocol: pure function to a score. -/
abbrev DemandF := String → DTime → ℚ

/-- A headway policy, as the `HeadwayPolicy` protocol; `none` models a raised
exception inside the policy. -/
abbrev HeadwayF := String → DTime → ℚ → Option Int

/-- The resolved default provider `SimpleDemandByHour()`. -/
def defaultDemandF : DemandF := fun r t => defaultDemand.get_demand_score r t

/-- The resolved default policy `ThresholdHeadwayPolicy()`. -/
def defaultHeadwayF : HeadwayF := fun r t s => defaultPolicy.get_headway_minutes r t s

/-- The interval determination in the loop body: `options.fixed_headway_min`
if set, otherwise estimator then policy. -/
def effHead (fixed : Option Int) (dp : DemandF) (hp : HeadwayF)
    (route : String) (current : DTime) : Option Int :=
  match fixed with
  | some H => some H
  | none => hp route current (dp route current)

/-- Outcome of the per-route `while` loop under a given fuel. -/
inductive LoopOut where
  | done : List DTime → LoopOut
  | raised : LoopOut
  | more : LoopOut
deriving DecidableEq

/-- The per-route `while current.time() <= end` loop of
`generate_daily_schedule`, with explicit fuel. -/
def scheduleLoop (w : ServiceWindow) (g : Option Int) (fixed : Option Int)
    (dp : DemandF) (hp : HeadwayF) (route : String) : ℕ → DTime → LoopOut
  | 0, current => if dtTime current ≤ w.«end» then .more else .done []
  | n + 1, current =>
    if dtTime current ≤ w.«end» then
      match effHead fixed dp hp route current with
      | none => .raised
      | some headway_min =>
        match scheduleLoop w g fixed dp hp route n
            (stepRound (current + headway_min * usPerMinute) g) with
        | .done l => .done (current :: l)
        | .raised => .raised
        | .more => .more
    else .done []

/-- A Python dict from route name to departure list, insertion ordered. -/
abbrev Schedule := List (String × List DTime)

/-- Dict indexing `schedules[r]`. -/
def dictLookup (r : String) : Schedule → Option (List DTime)
  | [] => none
  | e :: es => if e.1 = r then some e.2 else dictLookup r es

/-- One step of the comprehension `{r: [] for r in routes}`: a route name
already present adds no second key. -/
def stepInit (d : Schedule) (r : String) : Schedule :=
  if (dictLookup r d).isSome then d else d ++ [(r, [])]

/-- The comprehension `{r: [] for r in routes}` (later duplicates do not add
a second key). -/
def dictInit (routes : List String) : Schedule :=
  routes.foldl stepInit []

/-- Net effect of the per-route loop's `schedules[route].append(...)` calls. -/
def dictAppend (d : Schedule) (r : String) (xs : List DTime) : Schedule :=
  d.map (fun e => if e.1 = r then (e.1, e.2 ++ xs) else e)

/-- Outcome of `generate_daily_schedule`: `invalid` is the `ValueError` for a
bad window, `raised` an exception propagated from estimator/policy, `more`
fuel exhaustion (the Python loop still running). -/
inductive GenOut where
  | ok : Schedule → GenOut
  | invalid : GenOut
  | raised : GenOut
  | more : GenOut
deriving DecidableEq

/-- The `for route in routes:` loop of `generate_daily_schedule`. -/
def runRoutes (day : Int) (w : ServiceWindow) (g : Option Int) (fixed : Option Int)
    (dp : DemandF) (hp : HeadwayF) (fuel : ℕ) : List String → Schedule → GenOut
  | [], d => .ok d
  | r :: rs, d =>
    match scheduleLoop w g fixed dp hp r fuel (round_dt (combine day w.start) g) with
    | .done l => runRoutes day w g fixed dp hp fuel rs (dictAppend d r l)
    | .raised => .raised
    | .more => .more

/-- `generate_daily_schedule` (with already-resolved estimator and policy;
the Python `None` defaults resolve to `defaultDemandF` / `defaultHeadwayF`). -/
def generate_daily_schedule (fuel : ℕ) (routes : List String) (service_day : Int)
    (options : ScheduleOptions) (dp : DemandF) (hp : HeadwayF) : GenOut :=
  if options.service_window.«end» ≤ options.service_window.start then .invalid
  else runRoutes service_day options.service_window options.round_to_minutes
    options.fixed_headway_min dp hp fuel routes (dictInit routes)

/-- The Python call terminates iff some fuel suffices. -/
def Terminates (routes : List String) (day : Int) (options : ScheduleOptions)
    (dp : DemandF) (hp : HeadwayF) : Prop :=
  ∃ fuel, generate_daily_schedule fuel routes day options dp hp ≠ GenOut.more

/-- Alignment invariant maintained by rounding: whenever a real granularity
`g ≥ 2` is configured, the current timestamp has no sub-minute part and its
minute is a multiple of `g`. -/
def AlignedTo (g : Option Int) (c : DTime) : Prop :=
  ∀ gv, g = some gv → 2 ≤ gv → c % usPerMinute = 0 ∧ dtMinute c % gv = 0

/-! ### Concrete scenarios used by the claims -/

/-- A pathological custom policy that always returns a zero interval. -/
def zeroHeadwayPolicy : HeadwayF := fun _ _ _ => some 0

/-- Valid 07:00-09:00 window, no fixed headway, no rounding. -/
def c1CexOpts : ScheduleOptions := ⟨⟨7 * usPerHour, 9 * usPerHour⟩, none, none⟩

/-- Valid 23:42-23:44 window, defaults, no rounding: a run that steps across
midnight and still terminates. -/
def c2CexOpts : ScheduleOptions :=
  ⟨⟨23 * usPerHour + 42 * usPerMinute, 23 * usPerHour + 44 * usPerMinute⟩, none, none⟩

/-- The route sequence the generator produces in the `c2CexOpts` scenario. -/
def c2CexList : List DTime :=
  match generate_daily_schedule 150 ["A"] 0 c2CexOpts defaultDemandF defaultHeadwayF with
  | GenOut.ok d => (dictLookup "A" d).getD []
  | _ => []

/-- Valid 07:00-07:20 window, defaults, no rounding. -/
def c2WitOpts : ScheduleOptions := ⟨⟨7 * usPerHour, 7 * usPerHour + 20 * usPerMinute⟩, none, none⟩

/-- The departures produced in the `c2WitOpts` scenario. -/
def c2WitList : List DTime :=
  [combine 0 (7 * usPerHour), combine 0 (7 * usPerHour + 8 * usPerMinute),
   combine 0 (7 * usPerHour + 16 * usPerMinute)]

/-- Scenario B of the spec: window 07:00-09:00, defaults, no fixed headway,
no rounding. -/
def scenarioBOpts : ScheduleOptions := ⟨⟨7 * usPerHour, 9 * usPerHour⟩, none, none⟩

/-- What Scenario B actually produces: 8-minute steps from 07:00 up to 08:52,
then 09:00 (the window end itself, since 120 is a multiple of 8 and the
guard is inclusive). -/
def scenarioBList : List DTime :=
  [combine 0 (7 * usPerHour),
   combine 0 (7 * usPerHour + 8 * usPerMinute),
   combine 0 (7 * usPerHour + 16 * usPerMinute),
   combine 0 (7 * usPerHour + 24 * usPerMinute),
   combine 0 (7 * usPerHour + 32 * usPerMinute),
   combine 0 (7 * usPerHour + 40 * usPerMinute),
   combine 0 (7 * usPerHour + 48 * usPerMinute),
   combine 0 (7 * usPerHour + 56 * usPerMinute),
   combine 0 (8 * usPerHour + 4 * usPerMinute),
   combine 0 (8 * usPerHour + 12 * usPerMinute),
   combine 0 (8 * usPerHour + 20 * usPerMinute),
   combine 0 (8 * usPerHour + 28 * usPerMinute),
   combine 0 (8 * usPerHour + 36 * usPerMinute),
   combine 0 (8 * usPerHour + 44 * usPerMinute),
   combine 0 (8 * usPerHour + 52 * usPerMinute),
   combine 0 (9 * usPerHour)]

/-- Valid 06:00-07:00 window with a fixed 30-minute headway, no rounding. -/
def c5WitOpts : ScheduleOptions := ⟨⟨6 * usPerHour, 7 * usPerHour⟩, some 30, none⟩

/-- The departures produced in the `c5WitOpts` scenario. -/
def c5WitList : List DTime :=
  [combine 0 (6 * usPerHour), combine 0 (6 * usPerHour + 30 * usPerMinute),
   combine 0 (7 * usPerHour)]

/-- A custom estimator whose table misses hour 6 and holds an out-of-range
score for hour 5. -/
def c7WitnessEst : SimpleDemandByHour := ⟨[(5, 3)], mkRat 40 100⟩

/-- Valid 07:00-07:10 window with a fixed 6-minute headway, no rounding. -/
def c10Opts : ScheduleOptions := ⟨⟨7 * usPerHour, 7 * usPerHour + 10 * usPerMinute⟩, some 6, none⟩

/-- The full schedule for route list `["A", "B", "A"]` under `c10Opts`:
route `A` occurs twice, so its entry is the single-route schedule
concatenated with itself. -/
def c10WitSchedule : Schedule :=
  [("A", [combine 0 (7 * usPerHour), combine 0 (7 * usPerHour + 6 * usPerMinute),
          combine 0 (7 * usPerHour), combine 0 (7 * usPerHour + 6 * usPerMinute)]),
   ("B", [combine 0 (7 * usPerHour), combine 0 (7 * usPerHour + 6 * usPerMinute)])]

/-! ### Arithmetic facts about the datetime components -/

theorem dtTime_nonneg (c : DTime) : 0 ≤ dtTime c := by
  simp only [dtTime, usPerDay]; omega

theorem dtTime_lt (c : DTime) : dtTime c < usPerDay := by
  simp only [dtTime, usPerDay]; omega

theorem dtTime_add_eq {c k : Int} (h0 : 0 ≤ dtTime c + k) (h1 : dtTime c + k < usPerDay) :
    dtTime (c + k) = dtTime c + k := by
  simp only [dtTime, usPerDay] at *; omega

theorem dtMinute_eq (x : DTime) : dtMinute x = x / usPerMinute % 60 := by
  simp only [dtMinute, usPerHour, usPerMinute]; omega

theorem dtMinute_nonneg (x : DTime) : 0 ≤ dtMinute x := by
  simp only [dtMinute, usPerHour, usPerMinute]; omega

theorem subMinute_eq (x : DTime) :
    dtSecond x * usPerSecond + dtMicrosecond x = x % usPerMinute := by
  simp only [dtSecond, dtMicrosecond, usPerMinute, usPerSecond]; omega

theorem emod_le_self {a b : Int} (ha : 0 ≤ a) (hb : 0 < b) : a % b ≤ a := by
  have h1 := Int.ediv_add_emod a b
  have h2 : 0 ≤ a / b := Int.ediv_nonneg ha hb.le
  nlinarith

theorem round_dt_eq {x g : Int} (hg : 2 ≤ g) :
    round_dt x (some g) = x - (dtMinute x % g) * usPerMinute - x % usPerMinute := by
  simp only [round_dt, if_neg (by omega : ¬ g ≤ 1)]
  rw [show dtMinute x % g * usPerMinute + dtSecond x * usPerSecond + dtMicrosecond x
      = dtMinute x % g * usPerMinute + (dtSecond x * usPerSecond + dtMicrosecond x) by ring,
    subMinute_eq]
  ring

theorem round_dt_trivial {x g : Int} (hg : g ≤ 1) : round_dt x (some g) = x := by
  simp [round_dt, hg]

theorem stepRound_eq_round (x : DTime) (g : Option Int) : stepRound x g = round_dt x g := by
  match g with
  | none => rfl
  | some gv =>
    by_cases h : gv = 0
    · subst h; simp [stepRound, round_dt]
    · simp [stepRound, h]

theorem round_dt_as_mul {x g : Int} (hg : 2 ≤ g) :
    round_dt x (some g) = usPerMinute * (x / usPerMinute - dtMinute x % g) := by
  rw [round_dt_eq hg]
  have h1 := Int.ediv_add_emod x usPerMinute
  linarith [h1]

theorem round_dt_emod {x g : Int} (hg : 2 ≤ g) :
    round_dt x (some g) % usPerMinute = 0 := by
  rw [round_dt_as_mul hg]
  exact Int.mul_emod_right _ _

theorem round_dt_minute {x g : Int} (hg : 2 ≤ g) :
    dtMinute (round_dt x (some g)) % g = 0 := by
  have husM : (0:Int) < usPerMinute := by decide
  have hg0 : (0:Int) < g := by omega
  rw [round_dt_as_mul hg, dtMinute_eq,
    Int.mul_ediv_cancel_left _ (by decide : usPerMinute ≠ 0)]
  set X := x / usPerMinute with hX
  have hmx : dtMinute x = X % 60 := dtMinute_eq x
  set m := X % 60 with hm
  have hm0 : 0 ≤ m := Int.emod_nonneg X (by decide)
  have hm60 : m < 60 := Int.emod_lt_of_pos X (by decide)
  have hm'0 : 0 ≤ m % g := Int.emod_nonneg m (by omega)
  have hm'le : m % g ≤ m := emod_le_self hm0 hg0
  have step1 : (X - dtMinute x % g) % 60 = m - m % g := by
    rw [hmx]
    have hX60 := Int.ediv_add_emod X 60
    have : X - m % g = (m - m % g) + 60 * (X / 60) := by omega
    rw [this, Int.add_mul_emod_self_left]
    exact Int.emod_eq_of_lt (by omega) (by omega)
  rw [step1]
  have : m - m % g = g * (m / g) := by
    have := Int.ediv_add_emod m g
    omega
  rw [this]
  exact Int.mul_emod_right _ _

theorem alignedTo_round (g : Option Int) (x : DTime) : AlignedTo g (round_dt x g) := by
  intro gv hgv h2
  subst hgv
  exact ⟨round_dt_emod h2, round_dt_minute h2⟩

theorem alignedTo_of_trivial {g : Option Int} (h : ∀ gv, g = some gv → ¬ 2 ≤ gv)
    (c : DTime) : AlignedTo g c := by
  intro gv hgv h2
  exact absurd h2 (h gv hgv)

theorem add_headway_emod {c h : Int} (hc : c % usPerMinute = 0) :
    (c + h * usPerMinute) % usPerMinute = 0 := by
  rw [mul_comm, Int.add_mul_emod_self_left, hc]

theorem add_headway_minute {c h : Int} (hc : c % usPerMinute = 0) :
    dtMinute (c + h * usPerMinute) = (c / usPerMinute + h) % 60 := by
  rw [dtMinute_eq]
  have : (c + h * usPerMinute) / usPerMinute = c / usPerMinute + h := by
    have h1 := Int.ediv_add_emod c usPerMinute
    rw [hc] at h1
    have : c + h * usPerMinute = usPerMinute * (c / usPerMinute + h) := by linarith
    rw [this, Int.mul_ediv_cancel_left _ (by decide : usPerMinute ≠ 0)]
  rw [this]

/-- The minutes discarded by re-rounding after an advance of `h ≥ 0` minutes
from an aligned point never exceed `h`. -/
theorem discard_minutes_le {c g h : Int} (hg : 2 ≤ g) (hc : c % usPerMinute = 0)
    (hm : dtMinute c % g = 0) (hh : 0 ≤ h) :
    dtMinute (c + h * usPerMinute) % g ≤ h := by
  have hg0 : (0:Int) < g := by omega
  rw [add_headway_minute hc]
  set C := c / usPerMinute with hC
  have hmc : dtMinute c = C % 60 := dtMinute_eq c
  set m := C % 60 with hmdef
  have hm0 : 0 ≤ m := Int.emod_nonneg C (by decide)
  have hm60 : m < 60 := Int.emod_lt_of_pos C (by decide)
  have hmg : m % g = 0 := by rw [← hmc]; exact hm
  have hCh : (C + h) % 60 = (m + h) % 60 := by
    have hC60 := Int.ediv_add_emod C 60
    have : C + h = (m + h) + 60 * (C / 60) := by omega
    rw [this, Int.add_mul_emod_self_left]
  rw [hCh]
  by_cases hcase : m + h < 60
  · rw [Int.emod_eq_of_lt (by omega) hcase]
    have hmq : m = g * (m / g) := by
      have := Int.ediv_add_emod m g
      omega
    have : (m + h) % g = h % g := by
      rw [hmq, show g * (m / g) + h = h + g * (m / g) by ring, Int.add_mul_emod_self_left]
    rw [this]
    exact emod_le_self hh hg0
  · have hy0 : 0 ≤ (m + h) % 60 := Int.emod_nonneg _ (by decide)
    have hyle : (m + h) % 60 ≤ m + h - 60 := by
      have h60 := Int.ediv_add_emod (m + h) 60
      have hq : 1 ≤ (m + h) / 60 := by
        rw [Int.le_ediv_iff_mul_le (by decide : (0:Int) < 60)]
        omega
      omega
    calc (m + h) % 60 % g ≤ (m + h) % 60 := emod_le_self hy0 hg0
      _ ≤ m + h - 60 := hyle
      _ ≤ h := by omega

/-- After an aligned advance, rounding never moves back past the pre-advance
point. -/
theorem round_ge_self {c h : Int} {g : Option Int} (ha : AlignedTo g c) (hh : 0 ≤ h) :
    c ≤ round_dt (c + h * usPerMinute) g := by
  match g with
  | none => simp only [round_dt]; nlinarith [(by decide : (0:Int) < usPerMinute)]
  | some gv =>
    by_cases h2 : 2 ≤ gv
    · obtain ⟨hc, hm⟩ := ha gv rfl h2
      rw [round_dt_eq h2, add_headway_emod hc]
      have hd := discard_minutes_le h2 hc hm hh
      have hd0 : 0 ≤ dtMinute (c + h * usPerMinute) % gv :=
        Int.emod_nonneg _ (by omega)
      nlinarith [(by decide : (0:Int) < usPerMinute)]
    · rw [round_dt_trivial (by omega)]
      nlinarith [(by decide : (0:Int) < usPerMinute)]

/-- Strict progress of the time-of-day under the termination-side conditions:
headway at least 1, at least the granularity, and no wrap past midnight. -/
theorem round_tod_progress {c h : Int} {g : Option Int} (ha : AlignedTo g c) (h1 : 1 ≤ h)
    (hgle : ∀ gv, g = some gv → 2 ≤ gv → gv ≤ h)
    (hwrap : dtTime c + h * usPerMinute < usPerDay) :
    dtTime c + usPerMinute ≤ dtTime (round_dt (c + h * usPerMinute) g) := by
  have husM : (0:Int) < usPerMinute := by decide
  have htv : dtTime (c + h * usPerMinute) = dtTime c + h * usPerMinute :=
    dtTime_add_eq (by nlinarith [dtTime_nonneg c]) hwrap
  match g with
  | none =>
    simp only [round_dt]
    rw [htv]; nlinarith
  | some gv =>
    by_cases h2 : 2 ≤ gv
    · obtain ⟨hc, hm⟩ := ha gv rfl h2
      have hgh : gv ≤ h := hgle gv rfl h2
      rw [round_dt_eq h2, add_headway_emod hc]
      set m' := dtMinute (c + h * usPerMinute) % gv with hm'
      have hd0 : 0 ≤ m' := Int.emod_nonneg _ (by omega)
      have hdlt : m' < gv := Int.emod_lt_of_pos _ (by omega)
      have key : dtTime (c + h * usPerMinute - m' * usPerMinute - 0)
          = dtTime c + h * usPerMinute - m' * usPerMinute := by
        rw [show c + h * usPerMinute - m' * usPerMinute - 0
            = c + (h * usPerMinute - m' * usPerMinute) by ring]
        rw [dtTime_add_eq (by nlinarith [dtTime_nonneg c]) (by nlinarith)]
        ring
      rw [key]
      nlinarith
    · rw [round_dt_trivial (by omega), htv]
      nlinarith

/-! ### Behaviour of the per-route loop -/

/-- If one iteration leaves `current` unchanged while the guard holds, the
Python `while` loop never terminates: every fuel runs out. -/
theorem loop_fix {w : ServiceWindow} {g fixed : Option Int} {dp : DemandF} {hp : HeadwayF}
    {r : String} {c : DTime} {hm : Int} (hguard : dtTime c ≤ w.«end»)
    (heff : effHead fixed dp hp r c = some hm)
    (hnext : stepRound (c + hm * usPerMinute) g = c) :
    ∀ n, scheduleLoop w g fixed dp hp r n c = .more := by
  intro n
  induction n with
  | zero => simp [scheduleLoop, hguard]
  | succ n ih => simp only [scheduleLoop, if_pos hguard, heff, hnext, ih]

/-- Every `done` result is either empty or begins with the entry point. -/
theorem loop_done_shape {w : ServiceWindow} {g fixed : Option Int} {dp : DemandF}
    {hp : HeadwayF} {r : String} {n : ℕ} {c : DTime} {l : List DTime}
    (h : scheduleLoop w g fixed dp hp r n c = .done l) : l = [] ∨ ∃ t, l = c :: t := by
  by_cases hg : dtTime c ≤ w.«end»
  · cases n with
    | zero => simp [scheduleLoop, hg] at h
    | succ n =>
      cases heff : effHead fixed dp hp r c with
      | none => simp [scheduleLoop, hg, heff] at h
      | some hd =>
        cases hrec : scheduleLoop w g fixed dp hp r n
            (stepRound (c + hd * usPerMinute) g) with
        | done l' =>
          simp only [scheduleLoop, if_pos hg, heff, hrec] at h
          exact Or.inr ⟨l', by injection h with h; exact h.symm⟩
        | raised => simp [scheduleLoop, hg, heff, hrec] at h
        | more => simp [scheduleLoop, hg, heff, hrec] at h
  · cases n with
    | zero =>
      simp only [scheduleLoop, if_neg hg] at h
      exact Or.inl (by injection h with h; exact h.symm)
    | succ n =>
      simp only [scheduleLoop, if_neg hg] at h
      exact Or.inl (by injection h with h; exact h.symm)

/-- Under headways of at least one minute that respect the granularity and
cannot wrap past midnight, the loop always runs out of window before it runs
out of fuel (fuel counted in minutes of remaining day). -/
theorem loop_no_more {w : ServiceWindow} {g fixed : Option Int} {dp : DemandF}
    {hp : HeadwayF} {r : String}
    (hh : ∀ t h, effHead fixed dp hp r t = some h →
      1 ≤ h ∧ w.«end» + h * usPerMinute < usPerDay ∧
        ∀ gv, g = some gv → 2 ≤ gv → gv ≤ h) :
    ∀ (n : ℕ) (c : DTime), AlignedTo g c → usPerDay - dtTime c ≤ (n : Int) * usPerMinute →
      scheduleLoop w g fixed dp hp r n c ≠ .more := by
  intro n
  induction n with
  | zero =>
    intro c _ hbound
    exfalso
    have := dtTime_lt c
    simp only [Nat.cast_zero, zero_mul] at hbound
    omega
  | succ n ih =>
    intro c hal hbound
    by_cases hguard : dtTime c ≤ w.«end»
    · cases heff : effHead fixed dp hp r c with
      | none => simp [scheduleLoop, hguard, heff]
      | some h =>
        obtain ⟨h1, hwrap, hgle⟩ := hh c h heff
        have hnr : stepRound (c + h * usPerMinute) g = round_dt (c + h * usPerMinute) g :=
          stepRound_eq_round _ _
        have hal' : AlignedTo g (stepRound (c + h * usPerMinute) g) := by
          rw [hnr]; exact alignedTo_round g _
        have hprog : dtTime c + usPerMinute ≤
            dtTime (stepRound (c + h * usPerMinute) g) := by
          rw [hnr]
          exact round_tod_progress hal h1 hgle (by linarith)
        have hrec := ih (stepRound (c + h * usPerMinute) g) hal' (by push_cast at *; linarith)
        cases hl : scheduleLoop w g fixed dp hp r n (stepRound (c + h * usPerMinute) g) with
        | done l => simp [scheduleLoop, hguard, heff, hl]
        | raised => simp [scheduleLoop, hguard, heff, hl]
        | more => exact absurd hl hrec
    · simp [scheduleLoop, hguard]

/-- Any terminating run from an aligned point yields a strictly increasing
list of timestamps, all at or after the entry point and with time-of-day at
or before the window end.  (Only nonnegative headways are required: a zero
net step cannot terminate, by `loop_fix`.) -/
theorem loop_bounds {w : ServiceWindow} {g fixed : Option Int} {dp : DemandF}
    {hp : HeadwayF} {r : String}
    (hpos : ∀ t h, effHead fixed dp hp r t = some h → 0 ≤ h) :
    ∀ (n : ℕ) (c : DTime) (l : List DTime), AlignedTo g c →
      scheduleLoop w g fixed dp hp r n c = .done l →
      List.Chain' (· < ·) l ∧ ∀ x ∈ l, c ≤ x ∧ dtTime x ≤ w.«end» := by
  intro n
  induction n with
  | zero =>
    intro c l _ h
    by_cases hg : dtTime c ≤ w.«end»
    · simp [scheduleLoop, hg] at h
    · simp only [scheduleLoop, if_neg hg] at h
      injection h with h
      subst h
      simp
  | succ n ih =>
    intro c l hal h
    by_cases hg : dtTime c ≤ w.«end»
    · cases heff : effHead fixed dp hp r c with
      | none => simp [scheduleLoop, hg, heff] at h
      | some hd =>
        have hd0 := hpos c hd heff
        have hnr : stepRound (c + hd * usPerMinute) g = round_dt (c + hd * usPerMinute) g :=
          stepRound_eq_round _ _
        have hal' : AlignedTo g (stepRound (c + hd * usPerMinute) g) := by
          rw [hnr]; exact alignedTo_round g _
        have hcn : c ≤ stepRound (c + hd * usPerMinute) g := by
          rw [hnr]; exact round_ge_self hal hd0
        cases hrec : scheduleLoop w g fixed dp hp r n
            (stepRound (c + hd * usPerMinute) g) with
        | raised => simp [scheduleLoop, hg, heff, hrec] at h
        | more => simp [scheduleLoop, hg, heff, hrec] at h
        | done l' =>
          simp only [scheduleLoop, if_pos hg, heff, hrec] at h
          injection h with h
          subst h
          obtain ⟨ch', hb⟩ := ih _ l' hal' hrec
          constructor
          · rw [List.chain'_cons']
            refine ⟨?_, ch'⟩
            intro y hy
            rcases loop_done_shape hrec with h0 | ⟨t, ht⟩
            · subst h0; simp at hy
            · subst ht
              simp only [List.head?_cons, Option.mem_some_iff] at hy
              subst hy
              rcases lt_or_eq_of_le hcn with hlt | heq
              · exact hlt
              · exfalso
                have hfix := loop_fix hg heff heq.symm n
                rw [← heq] at hrec
                rw [hfix] at hrec
                exact LoopOut.noConfusion hrec
          · intro x hx
            rcases List.mem_cons.mp hx with hx | hx
            · subst hx; exact ⟨le_refl _, hg⟩
            · obtain ⟨h1x, h2x⟩ := hb x hx
              exact ⟨le_trans hcn h1x, h2x⟩
    · simp only [scheduleLoop, if_neg hg] at h
      injection h with h
      subst h
      simp

/-- With a fixed headway configured, the loop never consults the estimator or
the policy. -/
theorem loop_indep {w : ServiceWindow} {g : Option Int} {H : Int}
    {dp dp' : DemandF} {hp hp' : HeadwayF} {r : String} :
    ∀ (n : ℕ) (c : DTime),
      scheduleLoop w g (some H) dp hp r n c = scheduleLoop w g (some H) dp' hp' r n c := by
  intro n
  induction n with
  | zero => intro c; rfl
  | succ n ih => intro c; simp only [scheduleLoop, effHead, ih]

/-- With a fixed headway `H`, each output entry is the previous one advanced
by exactly `H` minutes and then re-rounded. -/
theorem loop_fixed_chain {w : ServiceWindow} {g : Option Int} {H : Int}
    {dp : DemandF} {hp : HeadwayF} {r : String} :
    ∀ (n : ℕ) (c : DTime) (l : List DTime),
      scheduleLoop w g (some H) dp hp r n c = .done l →
      List.Chain' (fun a b => b = stepRound (a + H * usPerMinute) g) l := by
  intro n
  induction n with
  | zero =>
    intro c l h
    by_cases hg : dtTime c ≤ w.«end»
    · simp [scheduleLoop, hg] at h
    · simp only [scheduleLoop, if_neg hg] at h
      injection h with h
      subst h
      simp
  | succ n ih =>
    intro c l h
    by_cases hg : dtTime c ≤ w.«end»
    · have heff : effHead (some H) dp hp r c = some H := rfl
      cases hrec : scheduleLoop w g (some H) dp hp r n
          (stepRound (c + H * usPerMinute) g) with
      | raised => simp [scheduleLoop, hg, heff, hrec] at h
      | more => simp [scheduleLoop, hg, heff, hrec] at h
      | done l' =>
        simp only [scheduleLoop, if_pos hg, heff, hrec] at h
        injection h with h
        subst h
        rw [List.chain'_cons']
        refine ⟨?_, ih _ l' hrec⟩
        intro y hy
        rcases loop_done_shape hrec with h0 | ⟨t, ht⟩
        · subst h0; simp at hy
        · subst ht
          simp only [List.head?_cons, Option.mem_some_iff] at hy
          subst hy
          rfl
    · simp only [scheduleLoop, if_neg hg] at h
      injection h with h
      subst h
      simp

/-! ### Behaviour of the schedule dictionary -/

theorem dictLookup_append (r : String) (d d₂ : Schedule) :
    dictLookup r (d ++ d₂) = match dictLookup r d with
      | some v => some v
      | none => dictLookup r d₂ := by
  induction d with
  | nil => rfl
  | cons e es ih =>
    by_cases h : e.1 = r
    · simp [dictLookup, h]
    · simp [dictLookup, h, ih]

theorem dictLookup_dictAppend (d : Schedule) (r r' : String) (xs : List DTime) :
    dictLookup r (dictAppend d r' xs) =
      (dictLookup r d).map (fun v => if r' = r then v ++ xs else v) := by
  induction d with
  | nil => rfl
  | cons e es ih =>
    simp only [dictAppend, List.map_cons] at *
    by_cases h1 : e.1 = r'
    · by_cases h2 : e.1 = r
      · have hrr : r' = r := by rw [← h1, h2]
        simp [dictLookup, h1, h2, hrr]
      · have hrr : ¬ r' = r := fun hh => h2 (by rw [h1, hh])
        simp [dictLookup, h1, h2, hrr, ih]
    · by_cases h2 : e.1 = r
      · have hrr : ¬ r' = r := fun hh => h1 (by rw [h2, hh])
        have h1' : ¬ r = r' := by rw [← h2]; exact h1
        simp [dictLookup, h1, h1', h2, hrr]
      · simp [dictLookup, h1, h2, ih]

theorem dictAppend_keys (d : Schedule) (r : String) (xs : List DTime) :
    (dictAppend d r xs).map Prod.fst = d.map Prod.fst := by
  induction d with
  | nil => rfl
  | cons e es ih =>
    simp only [dictAppend, List.map_cons] at *
    rw [ih]
    congr 1
    split <;> rfl

theorem dictLookup_isSome_iff (r : String) (d : Schedule) :
    (dictLookup r d).isSome ↔ r ∈ d.map Prod.fst := by
  induction d with
  | nil => simp [dictLookup]
  | cons e es ih =>
    by_cases h : e.1 = r
    · simp [dictLookup, h]
    · simp only [dictLookup, if_neg h, List.map_cons, List.mem_cons]
      rw [ih]
      constructor
      · exact Or.inr
      · rintro (hh | hh)
        · exact absurd hh.symm h
        · exact hh

theorem dictLookup_stepInit (d : Schedule) (r r' : String) :
    dictLookup r (stepInit d r') = match dictLookup r d with
      | some v => some v
      | none => if r' = r then some [] else none := by
  unfold stepInit
  by_cases h : (dictLookup r' d).isSome
  · rw [if_pos h]
    cases hl : dictLookup r d with
    | some v => simp [hl]
    | none =>
      by_cases hrr : r' = r
      · subst hrr; simp [hl] at h
      · simp [hl, hrr]
  · rw [if_neg h, dictLookup_append]
    cases hl : dictLookup r d with
    | some v => simp
    | none => simp [dictLookup]

theorem dictLookup_foldl_stepInit : ∀ (rs : List String) (d : Schedule) (r : String),
    dictLookup r (rs.foldl stepInit d) = match dictLookup r d with
      | some v => some v
      | none => if r ∈ rs then some [] else none := by
  intro rs
  induction rs with
  | nil => intro d r; cases hl : dictLookup r d <;> simp [hl]
  | cons r'' rs ih =>
    intro d r
    simp only [List.foldl_cons]
    rw [ih (stepInit d r'') r, dictLookup_stepInit]
    cases hl : dictLookup r d with
    | some v => simp [hl]
    | none =>
      by_cases hrr : r'' = r
      · simp [hl, hrr, List.mem_cons]
      · have hrr' : ¬ r = r'' := fun hh => hrr hh.symm
        simp [hl, hrr, hrr', List.mem_cons]

theorem dictLookup_dictInit (routes : List String) (r : String) :
    dictLookup r (dictInit routes) = if r ∈ routes then some [] else none := by
  unfold dictInit
  rw [dictLookup_foldl_stepInit]
  simp [dictLookup]

theorem keys_foldl_nodup : ∀ (rs : List String) (d : Schedule),
    (d.map Prod.fst).Nodup → ((rs.foldl stepInit d).map Prod.fst).Nodup := by
  intro rs
  induction rs with
  | nil => intro d h; exact h
  | cons r'' rs ih =>
    intro d h
    simp only [List.foldl_cons]
    apply ih
    unfold stepInit
    by_cases hs : (dictLookup r'' d).isSome
    · rw [if_pos hs]; exact h
    · rw [if_neg hs]
      have hnm : r'' ∉ d.map Prod.fst := by
        rw [← dictLookup_isSome_iff]
        simpa using hs
      rw [List.map_append, List.nodup_append]
      refine ⟨h, List.nodup_singleton _, ?_⟩
      intro a ha hb
      simp only [List.map_cons, List.map_nil, List.mem_singleton] at hb
      subst hb
      exact hnm ha

theorem keys_foldl_mem : ∀ (rs : List String) (d : Schedule) (r : String),
    r ∈ (rs.foldl stepInit d).map Prod.fst ↔ r ∈ d.map Prod.fst ∨ r ∈ rs := by
  intro rs
  induction rs with
  | nil => intro d r; simp
  | cons r'' rs ih =>
    intro d r
    simp only [List.foldl_cons]
    rw [ih]
    unfold stepInit
    by_cases hs : (dictLookup r'' d).isSome
    · rw [if_pos hs]
      have : r'' ∈ d.map Prod.fst := (dictLookup_isSome_iff r'' d).mp hs
      constructor
      · rintro (h | h)
        · exact Or.inl h
        · exact Or.inr (List.mem_cons_of_mem _ h)
      · rintro (h | h)
        · exact Or.inl h
        · rcases List.mem_cons.mp h with h | h
          · exact Or.inl (h ▸ this)
          · exact Or.inr h
    · rw [if_neg hs, List.map_append]
      simp only [List.map_cons, List.map_nil, List.mem_append, List.mem_singleton,
        List.mem_cons]
      tauto

/-! ### Behaviour of the route loop of the generator -/

theorem runRoutes_ok_keys {day : Int} {w : ServiceWindow} {g fixed : Option Int}
    {dp : DemandF} {hp : HeadwayF} {fuel : ℕ} :
    ∀ (rs : List String) (d d' : Schedule),
      runRoutes day w g fixed dp hp fuel rs d = .ok d' →
      d'.map Prod.fst = d.map Prod.fst := by
  intro rs
  induction rs with
  | nil =>
    intro d d' h
    simp only [runRoutes] at h
    injection h with h
    rw [h]
  | cons r'' rs ih =>
    intro d d' h
    cases hl : scheduleLoop w g fixed dp hp r'' fuel (round_dt (combine day w.start) g) with
    | done l =>
      simp only [runRoutes, hl] at h
      rw [ih _ _ h, dictAppend_keys]
    | raised => simp [runRoutes, hl] at h
    | more => simp [runRoutes, hl] at h

theorem runRoutes_ok_loop {day : Int} {w : ServiceWindow} {g fixed : Option Int}
    {dp : DemandF} {hp : HeadwayF} {fuel : ℕ} :
    ∀ (rs : List String) (d d' : Schedule),
      runRoutes day w g fixed dp hp fuel rs d = .ok d' →
      ∀ r ∈ rs, ∃ xs,
        scheduleLoop w g fixed dp hp r fuel (round_dt (combine day w.start) g) = .done xs := by
  intro rs
  induction rs with
  | nil => intro d d' _ r hr; exact absurd hr (List.not_mem_nil r)
  | cons r'' rs ih =>
    intro d d' h r hr
    cases hl : scheduleLoop w g fixed dp hp r'' fuel (round_dt (combine day w.start) g) with
    | done l =>
      simp only [runRoutes, hl] at h
      rcases List.mem_cons.mp hr with hr | hr
      · exact ⟨l, hr ▸ hl⟩
      · exact ih _ _ h r hr
    | raised => simp [runRoutes, hl] at h
    | more => simp [runRoutes, hl] at h

theorem runRoutes_ok_lookup {day : Int} {w : ServiceWindow} {g fixed : Option Int}
    {dp : DemandF} {hp : HeadwayF} {fuel : ℕ} :
    ∀ (rs : List String) (d d' : Schedule),
      runRoutes day w g fixed dp hp fuel rs d = .ok d' →
      ∀ (r : String) (xs : List DTime),
        scheduleLoop w g fixed dp hp r fuel (round_dt (combine day w.start) g) = .done xs →
        dictLookup r d' =
          (dictLookup r d).map (fun v => v ++ (List.replicate (rs.count r) xs).flatten) := by
  intro rs
  induction rs with
  | nil =>
    intro d d' h r xs _
    simp only [runRoutes] at h
    injection h with h
    subst h
    cases hl : dictLookup r d <;> simp [hl]
  | cons r'' rs ih =>
    intro d d' h r xs hxs
    cases hl : scheduleLoop w g fixed dp hp r'' fuel (round_dt (combine day w.start) g) with
    | done l =>
      simp only [runRoutes, hl] at h
      rw [ih _ _ h r xs hxs, dictLookup_dictAppend]
      by_cases hr : r'' = r
      · subst hr
        have hlx : l = xs := by
          rw [hl] at hxs
          injection hxs
        subst hlx
        cases hdl : dictLookup r'' d with
        | none => simp
        | some v =>
          rw [List.count_cons]
          simp only [hdl, Option.map_some, Option.map_map, if_pos rfl,
            beq_self_eq_true, if_true]
          simp [Function.comp, List.replicate_succ, List.append_assoc]
      · cases hdl : dictLookup r d with
        | none => simp [hdl]
        | some v =>
          rw [List.count_cons]
          have hbeq : (r'' == r) = false := beq_eq_false_iff_ne.mpr hr
          simp [hdl, hr, hbeq, Function.comp]
    | raised => simp [runRoutes, hl] at h
    | more => simp [runRoutes, hl] at h

theorem runRoutes_no_more {day : Int} {w : ServiceWindow} {g fixed : Option Int}
    {dp : DemandF} {hp : HeadwayF} {fuel : ℕ} :
    ∀ (rs : List String) (d : Schedule),
      (∀ r ∈ rs, scheduleLoop w g fixed dp hp r fuel (round_dt (combine day w.start) g) ≠ .more) →
      runRoutes day w g fixed dp hp fuel rs d ≠ .more := by
  intro rs
  induction rs with
  | nil => intro d _; simp [runRoutes]
  | cons r'' rs ih =>
    intro d hall
    cases hl : scheduleLoop w g fixed dp hp r'' fuel (round_dt (combine day w.start) g) with
    | done l =>
      simp only [runRoutes, hl]
      exact ih _ (fun r hr => hall r (List.mem_cons_of_mem _ hr))
    | raised => simp [runRoutes, hl]
    | more => exact absurd hl (hall r'' (List.mem_cons_self _ _))

theorem runRoutes_indep {day : Int} {w : ServiceWindow} {g : Option Int} {H : Int}
    {dp dp' : DemandF} {hp hp' : HeadwayF} {fuel : ℕ} :
    ∀ (rs : List String) (d : Schedule),
      runRoutes day w g (some H) dp hp fuel rs d
        = runRoutes day w g (some H) dp' hp' fuel rs d := by
  intro rs
  induction rs with
  | nil => intro d; rfl
  | cons r rs ih =>
    intro d
    simp only [runRoutes]
    rw [loop_indep fuel (round_dt (combine day w.start) g)]
    cases scheduleLoop w g (some H) dp' hp' r fuel (round_dt (combine day w.start) g) with
    | done l => exact ih _
    | raised => rfl
    | more => rfl

theorem generate_ok_elim {fuel : ℕ} {routes : List String} {day : Int}
    {opts : ScheduleOptions} {dp : DemandF} {hp : HeadwayF} {d : Schedule}
    (h : generate_daily_schedule fuel routes day opts dp hp = .ok d) :
    opts.service_window.start < opts.service_window.«end» ∧
    runRoutes day opts.service_window opts.round_to_minutes opts.fixed_headway_min
      dp hp fuel routes (dictInit routes) = .ok d := by
  unfold generate_daily_schedule at h
  by_cases hw : opts.service_window.«end» ≤ opts.service_window.start
  · rw [if_pos hw] at h
    exact absurd h (by simp)
  · rw [if_neg hw] at h
    exact ⟨by omega, h⟩

theorem generate_count_one_lookup {fuel : ℕ} {routes : List String} {day : Int}
    {opts : ScheduleOptions} {dp : DemandF} {hp : HeadwayF} {d : Schedule}
    {r : String} {l : List DTime}
    (hgen : generate_daily_schedule fuel routes day opts dp hp = .ok d)
    (hcnt : routes.count r = 1) (hl : dictLookup r d = some l) :
    scheduleLoop opts.service_window opts.round_to_minutes opts.fixed_headway_min dp hp r fuel
      (round_dt (combine day opts.service_window.start) opts.round_to_minutes) = .done l := by
  obtain ⟨hw, hrun⟩ := generate_ok_elim hgen
  have hmem : r ∈ routes := by
    by_contra hnm
    rw [List.count_eq_zero.mpr hnm] at hcnt
    simp at hcnt
  obtain ⟨xs, hxs⟩ := runRoutes_ok_loop routes _ _ hrun r hmem
  have hlk := runRoutes_ok_lookup routes _ _ hrun r xs hxs
  rw [dictLookup_dictInit, if_pos hmem, hcnt] at hlk
  simp only [List.replicate_one, List.flatten_cons, List.flatten_nil, List.append_nil,
    Option.map_some, List.nil_append] at hlk
  rw [hl] at hlk
  injection hlk with hlk
  exact hlk ▸ hxs

/-! ### The default estimator and policy -/

theorem demand_score_nonneg (est : SimpleDemandByHour) (r : String) (t : DTime) :
    0 ≤ est.get_demand_score r t :=
  le_max_left _ _

theorem demand_score_le_one (est : SimpleDemandByHour) (r : String) (t : DTime) :
    est.get_demand_score r t ≤ 1 :=
  max_le (by norm_num) (min_le_left _ _)

theorem sort_defaultThresholds : sortThresholdsDesc defaultThresholds = defaultThresholds := by
  simp only [sortThresholdsDesc, defaultThresholds, List.insertionSort, List.orderedInsert]
  norm_num [thrGT]

theorem defaultPolicy_eq : defaultPolicy = ⟨defaultThresholds, 6, 60⟩ := by
  unfold defaultPolicy mkThresholdHeadwayPolicy
  rw [Option.getD_none, sort_defaultThresholds]

theorem scan_default {s : ℚ} (h0 : 0 ≤ s) :
    ∃ h, scanThresholds 6 60 s defaultThresholds = some h ∧ 8 ≤ h ∧ h ≤ 30 := by
  simp only [defaultThresholds, scanThresholds]
  by_cases h85 : mkRat 85 100 ≤ s
  · exact ⟨8, by rw [if_pos h85]; decide, by norm_num, by norm_num⟩
  · rw [if_neg h85]
    by_cases h70 : mkRat 70 100 ≤ s
    · exact ⟨10, by rw [if_pos h70]; decide, by norm_num, by norm_num⟩
    · rw [if_neg h70]
      by_cases h50 : mkRat 50 100 ≤ s
      · exact ⟨15, by rw [if_pos h50]; decide, by norm_num, by norm_num⟩
      · rw [if_neg h50]
        by_cases h30 : mkRat 30 100 ≤ s
        · exact ⟨20, by rw [if_pos h30]; decide, by norm_num, by norm_num⟩
        · rw [if_neg h30]
          have h0' : mkRat 0 100 ≤ s := by
            rw [(by decide : mkRat 0 100 = (0:ℚ))]
            exact h0
          exact ⟨30, by rw [if_pos h0']; decide, by norm_num, by norm_num⟩

theorem defaultPolicy_headway (r : String) (t : DTime) {s : ℚ} (h0 : 0 ≤ s) :
    ∃ h, defaultPolicy.get_headway_minutes r t s = some h ∧ 8 ≤ h ∧ h ≤ 30 := by
  obtain ⟨h, hs, h8, h30⟩ := scan_default h0
  refine ⟨h, ?_, h8, h30⟩
  unfold ThresholdHeadwayPolicy.get_headway_minutes
  have ht : defaultPolicy.thresholds = defaultThresholds := by rw [defaultPolicy_eq]
  have hmin : defaultPolicy.min_headway = 6 := by rw [defaultPolicy_eq]
  have hmax : defaultPolicy.max_headway = 60 := by rw [defaultPolicy_eq]
  rw [ht, hmin, hmax, hs]

theorem effHead_default_bounds (r : String) (t : DTime) :
    ∃ h, effHead none defaultDemandF defaultHeadwayF r t = some h ∧ 8 ≤ h ∧ h ≤ 30 := by
  unfold effHead defaultHeadwayF
  exact defaultPolicy_headway r t (demand_score_nonneg defaultDemand r t)

/-! ### The claims -/

/-- C1, counterexample: with a perfectly valid 07:00-09:00 window and a
custom policy returning a zero interval, `generate_daily_schedule` never
terminates — the generator applies policy output unclamped, so the claimed
minimum-headway guarantee of forward progress does not exist in the code. -/
theorem c1_zero_policy_diverges :
    ¬ Terminates ["R1"] 0 c1CexOpts defaultDemandF zeroHeadwayPolicy := by
  rintro ⟨fuel, hne⟩
  apply hne
  have hguard : dtTime (combine 0 (7 * usPerHour)) ≤ c1CexOpts.service_window.«end» := by
    decide
  have heff : effHead c1CexOpts.fixed_headway_min defaultDemandF zeroHeadwayPolicy "R1"
      (combine 0 (7 * usPerHour)) = some 0 := rfl
  have hstep : stepRound (combine 0 (7 * usPerHour) + 0 * usPerMinute)
      c1CexOpts.round_to_minutes = combine 0 (7 * usPerHour) := by decide
  have hloop := loop_fix hguard heff hstep
  unfold generate_daily_schedule
  rw [if_neg (by decide)]
  have hinit : round_dt (combine 0 c1CexOpts.service_window.start)
      c1CexOpts.round_to_minutes = combine 0 (7 * usPerHour) := by decide
  simp [runRoutes, hinit, hloop fuel]

/-- C1 (amended): `generate_daily_schedule` terminates for every route list,
service day, options and estimator/policy pair, provided every interval the
loop actually uses is at least one minute, at least the configured rounding
granularity whenever that granularity is at least 2, and small enough that a
step taken from inside the window cannot wrap past midnight.  Without those
bounds the loop can run forever (see the counterexample). -/
theorem c1_terminates_amended (routes : List String) (day : Int) (opts : ScheduleOptions)
    (dp : DemandF) (hp : HeadwayF)
    (hh : ∀ r t h, effHead opts.fixed_headway_min dp hp r t = some h →
      1 ≤ h ∧ opts.service_window.«end» + h * usPerMinute < usPerDay ∧
        ∀ gv, opts.round_to_minutes = some gv → 2 ≤ gv → gv ≤ h) :
    Terminates routes day opts dp hp := by
  refine ⟨1440, ?_⟩
  unfold generate_daily_schedule
  by_cases hw : opts.service_window.«end» ≤ opts.service_window.start
  · rw [if_pos hw]
    simp
  · rw [if_neg hw]
    apply runRoutes_no_more
    intro r _
    apply loop_no_more (fun t h ht => hh r t h ht) 1440 _ (alignedTo_round _ _)
    have h1 := dtTime_nonneg
      (round_dt (combine day opts.service_window.start) opts.round_to_minutes)
    have hcast : ((1440 : ℕ) : Int) * usPerMinute = usPerDay := by
      norm_num [usPerMinute, usPerDay]
    rw [hcast]
    omega

/-- Witness for C1 (amended) at a fixed 30-minute headway, granularity 5,
window 07:00-09:00. -/
theorem c1_terminates_amended_witness :
    Terminates ["A"] 0 ⟨⟨7 * usPerHour, 9 * usPerHour⟩, some 30, some 5⟩
      defaultDemandF defaultHeadwayF := by
  apply c1_terminates_amended
  intro r t h ht
  have hpr : (⟨⟨7 * usPerHour, 9 * usPerHour⟩, some 30, some 5⟩ :
      ScheduleOptions).fixed_headway_min = some 30 := rfl
  rw [hpr] at ht
  simp only [effHead] at ht
  injection ht with ht
  subst ht
  refine ⟨by norm_num, by decide, ?_⟩
  intro gv hgv h2
  have : some (5 : Int) = some gv := hgv
  injection this with this
  omega

/-- C2, counterexample: with the valid window 23:42-23:44 and all defaults
(no rounding), the produced sequence for route `A` terminates but its second
element falls on the next day at 00:02 — its time-of-day is smaller than the
first element's and lies strictly below `start`, so the sequence is neither
strictly increasing in time-of-day nor contained in `[start, end]`. -/
theorem c2_window_violated :
    generate_daily_schedule 150 ["A"] 0 c2CexOpts defaultDemandF defaultHeadwayF
      = GenOut.ok [("A", c2CexList)] ∧
    c2CexList.get? 0 = some (combine 0 (23 * usPerHour + 42 * usPerMinute)) ∧
    c2CexList.get? 1 = some (combine 1 (2 * usPerMinute)) ∧
    dtTime (combine 1 (2 * usPerMinute))
      < dtTime (combine 0 (23 * usPerHour + 42 * usPerMinute)) ∧
    dtTime (combine 1 (2 * usPerMinute)) < c2CexOpts.service_window.start := by
  decide

/-- C2 (amended): with the default estimator and policy and a nonnegative
fixed headway (if any), every terminating run for a route listed exactly once
is strictly increasing as full timestamps, every element is at or after the
rounded window start combined with the service day, and every element's
time-of-day is at or before `end`.  (Time-of-day itself need not increase and
can fall below `start`: rounding floors the start, and steps can wrap past
midnight — see the counterexample.) -/
theorem c2_monotone_amended (fuel : ℕ) (routes : List String) (day : Int)
    (opts : ScheduleOptions) (d : Schedule) (r : String) (l : List DTime)
    (hfx : ∀ H, opts.fixed_headway_min = some H → 0 ≤ H)
    (hgen : generate_daily_schedule fuel routes day opts defaultDemandF defaultHeadwayF
      = .ok d)
    (hcnt : routes.count r = 1)
    (hl : dictLookup r d = some l) :
    List.Chain' (· < ·) l ∧
    ∀ x ∈ l, round_dt (combine day opts.service_window.start) opts.round_to_minutes ≤ x ∧
      dtTime x ≤ opts.service_window.«end» := by
  have hxs := generate_count_one_lookup hgen hcnt hl
  have hpos : ∀ t h,
      effHead opts.fixed_headway_min defaultDemandF defaultHeadwayF r t = some h →
      0 ≤ h := by
    intro t h he
    cases hf : opts.fixed_headway_min with
    | some H =>
      rw [hf] at he
      simp only [effHead] at he
      injection he with he
      exact he ▸ hfx H hf
    | none =>
      rw [hf] at he
      obtain ⟨h', he', h8, _⟩ := effHead_default_bounds r t
      rw [he'] at he
      injection he with he
      omega
  exact loop_bounds hpos fuel _ l (alignedTo_round _ _) hxs

/-- Witness for C2 (amended): window 07:00-07:20, defaults, no rounding,
producing 07:00, 07:08, 07:16. -/
theorem c2_monotone_amended_witness :
    List.Chain' (· < ·) c2WitList ∧
    ∀ x ∈ c2WitList,
      round_dt (combine 0 c2WitOpts.service_window.start) c2WitOpts.round_to_minutes ≤ x ∧
      dtTime x ≤ c2WitOpts.service_window.«end» :=
  c2_monotone_amended 6 ["A"] 0 c2WitOpts [("A", c2WitList)] "A" c2WitList
    (fun H h => Option.noConfusion h) (by decide) (by decide) (by decide)

/-- C3, counterexample: in Scenario B (window 07:00-09:00, defaults, no
fixed headway, no rounding) the generator does produce 16 departures, but the
last one is 09:00 — the window end itself, which the inclusive guard admits
since 120 minutes is a multiple of 8 — and 08:56 never occurs, contrary to
the claimed list ending at 08:56 with 09:04 excluded. -/
theorem c3_scenarioB_last_is_0900 :
    generate_daily_schedule 20 ["R"] 0 scenarioBOpts defaultDemandF defaultHeadwayF
      = GenOut.ok [("R", scenarioBList)] ∧
    scenarioBList.length = 16 ∧
    scenarioBList.getLast? = some (combine 0 (9 * usPerHour)) ∧
    combine 0 (8 * usPerHour + 56 * usPerMinute) ∉ scenarioBList ∧
    dtTime (combine 0 (9 * usPerHour)) = scenarioBOpts.service_window.«end» := by
  decide

/-- C3 (amended): Scenario B produces exactly 16 departures, namely 07:00,
07:08, ..., 08:52 and then 09:00; every demand score seen before 09:00 is in
the 0.85 tier giving 8-minute headways, and the final departure is the window
end 09:00 itself (inclusive guard), not 08:56. -/
theorem c3_scenarioB_amended :
    generate_daily_schedule 20 ["R"] 0 scenarioBOpts defaultDemandF defaultHeadwayF
      = GenOut.ok [("R", scenarioBList)] ∧
    scenarioBList.length = 16 ∧
    scenarioBList.take 15
      = (List.range 15).map (fun k => combine 0 (7 * usPerHour) + (k : Int) * (8 * usPerMinute)) ∧
    scenarioBList.getLast? = some (combine 0 (9 * usPerHour)) := by
  decide

/-- C4: whenever the service window has `start >= end`, the generator returns
the `InvalidConfiguration` error (the Python `ValueError`) for every fuel,
route list, day and estimator/policy — before any route is processed and
without any partial schedule. -/
theorem c4_invalid_window (fuel : ℕ) (routes : List String) (day : Int)
    (opts : ScheduleOptions) (dp : DemandF) (hp : HeadwayF)
    (h : opts.service_window.«end» ≤ opts.service_window.start) :
    generate_daily_schedule fuel routes day opts dp hp = GenOut.invalid := by
  unfold generate_daily_schedule
  rw [if_pos h]

/-- Witness for C4 at a degenerate 07:00-07:00 window. -/
theorem c4_invalid_window_witness :
    generate_daily_schedule 5 ["A", "B"] 0
      ⟨⟨7 * usPerHour, 7 * usPerHour⟩, none, some 5⟩
      defaultDemandF defaultHeadwayF = GenOut.invalid :=
  c4_invalid_window 5 ["A", "B"] 0 ⟨⟨7 * usPerHour, 7 * usPerHour⟩, none, some 5⟩
    defaultDemandF defaultHeadwayF (by decide)

/-- C5: with `fixed_headway_min = H` set, (a) the generator's output is
identical for any two estimator/policy pairs — they are never consulted;
(b) every per-route loop output steps by exactly `H` minutes before the
re-rounding (`next = stepRound (prev + H minutes)`); and (c) the same holds
for the sequence any once-listed route receives in the returned schedule.
With rounding off, consecutive departures therefore differ by exactly `H`
minutes. -/
theorem c5_fixed_headway (fuel : ℕ) (routes : List String) (day : Int)
    (opts : ScheduleOptions) (H : Int) (dp dp' : DemandF) (hp hp' : HeadwayF)
    (hfix : opts.fixed_headway_min = some H) :
    (generate_daily_schedule fuel routes day opts dp hp
      = generate_daily_schedule fuel routes day opts dp' hp') ∧
    (∀ (r : String) (n : ℕ) (c : DTime) (l : List DTime),
      scheduleLoop opts.service_window opts.round_to_minutes opts.fixed_headway_min
        dp hp r n c = .done l →
      List.Chain' (fun a b => b = stepRound (a + H * usPerMinute) opts.round_to_minutes) l) ∧
    (∀ (d : Schedule) (r : String) (l : List DTime),
      generate_daily_schedule fuel routes day opts dp hp = .ok d →
      routes.count r = 1 → dictLookup r d = some l →
      List.Chain' (fun a b => b = stepRound (a + H * usPerMinute) opts.round_to_minutes) l) := by
  refine ⟨?_, ?_, ?_⟩
  · unfold generate_daily_schedule
    by_cases hw : opts.service_window.«end» ≤ opts.service_window.start
    · simp only [if_pos hw]
    · simp only [if_neg hw]
      rw [hfix]
      exact runRoutes_indep routes (dictInit routes)
  · intro r n c l hdone
    rw [hfix] at hdone
    exact loop_fixed_chain n c l hdone
  · intro d r l hgen hcnt hl
    have hxs := generate_count_one_lookup hgen hcnt hl
    rw [hfix] at hxs
    exact loop_fixed_chain fuel _ l hxs

/-- Witness for C5: fixed 30-minute headway on a 06:00-07:00 window produces
06:00, 06:30, 07:00, identically under two different estimator/policy pairs. -/
theorem c5_fixed_headway_witness :
    (generate_daily_schedule 6 ["A"] 0 c5WitOpts defaultDemandF defaultHeadwayF
      = generate_daily_schedule 6 ["A"] 0 c5WitOpts (fun _ _ => 0) (fun _ _ _ => none)) ∧
    List.Chain' (fun a b => b = stepRound (a + 30 * usPerMinute) c5WitOpts.round_to_minutes)
      c5WitList :=
  ⟨(c5_fixed_headway 6 ["A"] 0 c5WitOpts 30 defaultDemandF (fun _ _ => 0)
      defaultHeadwayF (fun _ _ _ => none) rfl).1,
   (c5_fixed_headway 6 ["A"] 0 c5WitOpts 30 defaultDemandF (fun _ _ => 0)
      defaultHeadwayF (fun _ _ _ => none) rfl).2.2 [("A", c5WitList)] "A" c5WitList
     (by decide) (by decide) (by decide)⟩

/-- C6: for the default headway policy, every route, timestamp and demand
score in [0, 1] — the exact threshold boundaries included — yields a defined
headway lying within `[min_headway, max_headway]`. -/
theorem c6_headway_clamped (r : String) (t : DTime) (s : ℚ) (h0 : 0 ≤ s) (h1 : s ≤ 1) :
    ∃ h, defaultPolicy.get_headway_minutes r t s = some h ∧
      defaultPolicy.min_headway ≤ h ∧ h ≤ defaultPolicy.max_headway := by
  obtain ⟨h, he, h8, h30⟩ := defaultPolicy_headway r t h0
  refine ⟨h, he, ?_, ?_⟩
  · have hm : defaultPolicy.min_headway = 6 := by rw [defaultPolicy_eq]
    omega
  · have hm : defaultPolicy.max_headway = 60 := by rw [defaultPolicy_eq]
    omega

/-- Witness for C6 at the boundary score 0.70. -/
theorem c6_headway_clamped_witness :
    ∃ h, defaultPolicy.get_headway_minutes "Ruta_Centro" 0 (mkRat 70 100) = some h ∧
      defaultPolicy.min_headway ≤ h ∧ h ≤ defaultPolicy.max_headway :=
  c6_headway_clamped "Ruta_Centro" 0 (mkRat 70 100) (by decide) (by decide)

/-- C7: for every estimator table and base, every route and every datetime
(whose hour is necessarily 0-23), `get_demand_score` is in [0, 1]; a table
hit is the table value clamped to [0, 1] on read; a table miss falls back to
the clamped base, which for the default base 0.4 yields exactly 0.4. -/
theorem c7_demand_clamped (est : SimpleDemandByHour) (r : String) (t : DTime) :
    (0 ≤ est.get_demand_score r t ∧ est.get_demand_score r t ≤ 1) ∧
    (∀ v, est.by_hour.lookup (dtHour t) = some v →
      est.get_demand_score r t = max 0 (min 1 v)) ∧
    (est.by_hour.lookup (dtHour t) = none →
      est.get_demand_score r t = max 0 (min 1 est.base)) ∧
    (est.by_hour.lookup (dtHour t) = none → est.base = mkRat 40 100 →
      est.get_demand_score r t = mkRat 40 100) := by
  refine ⟨⟨demand_score_nonneg est r t, demand_score_le_one est r t⟩, ?_, ?_, ?_⟩
  · intro v hv
    unfold SimpleDemandByHour.get_demand_score
    rw [hv, Option.getD_some]
  · intro hn
    unfold SimpleDemandByHour.get_demand_score
    rw [hn, Option.getD_none]
  · intro hn hb
    unfold SimpleDemandByHour.get_demand_score
    rw [hn, Option.getD_none, hb]
    decide

/-- Witness for C7: a custom estimator missing hour 6 falls back to its base
0.4 and stays in [0, 1]. -/
theorem c7_demand_clamped_witness :
    (0 ≤ c7WitnessEst.get_demand_score "R" (combine 0 (6 * usPerHour)) ∧
      c7WitnessEst.get_demand_score "R" (combine 0 (6 * usPerHour)) ≤ 1) ∧
    c7WitnessEst.get_demand_score "R" (combine 0 (6 * usPerHour)) = mkRat 40 100 :=
  ⟨(c7_demand_clamped c7WitnessEst "R" (combine 0 (6 * usPerHour))).1,
   (c7_demand_clamped c7WitnessEst "R" (combine 0 (6 * usPerHour))).2.2.2 (by decide) rfl⟩

/-- C8: scanning the default table highest threshold first with `>=`, a score
exactly equal to a threshold selects that threshold's own tier: 0.85 gives 8,
0.70 gives 10 (not the 0.50 tier's 15), 0.50 gives 15, 0.30 gives 20, and
0.00 gives 30, for every route and timestamp. -/
theorem c8_threshold_tie_break (r : String) (t : DTime) :
    defaultPolicy.get_headway_minutes r t (mkRat 85 100) = some 8 ∧
    defaultPolicy.get_headway_minutes r t (mkRat 70 100) = some 10 ∧
    defaultPolicy.get_headway_minutes r t (mkRat 50 100) = some 15 ∧
    defaultPolicy.get_headway_minutes r t (mkRat 30 100) = some 20 ∧
    defaultPolicy.get_headway_minutes r t (mkRat 0 100) = some 30 :=
  ⟨rfl, rfl, rfl, rfl, rfl⟩

/-- C9: `_round_dt` is idempotent — flooring a timestamp twice with the same
granularity gives the same result as flooring it once, for every timestamp
and every granularity (including `None` and the no-op values). -/
theorem c9_round_idempotent (dt : DTime) (g : Option Int) :
    round_dt (round_dt dt g) g = round_dt dt g := by
  match g with
  | none => rfl
  | some gv =>
    by_cases h2 : 2 ≤ gv
    · have he : round_dt dt (some gv) % usPerMinute = 0 := round_dt_emod h2
      have hm : dtMinute (round_dt dt (some gv)) % gv = 0 := round_dt_minute h2
      conv_lhs => rw [round_dt_eq h2]
      rw [hm, he]
      ring
    · rw [round_dt_trivial (by omega), round_dt_trivial (by omega)]

/-- C10: if a route name occurs `k ≥ 1` times in the input list, the returned
schedule holds exactly one key for it, and its sequence is the schedule that
a single occurrence would receive (the one-route generation) concatenated
with itself `k` times. -/
theorem c10_duplicate_routes (fuel : ℕ) (routes : List String) (day : Int)
    (opts : ScheduleOptions) (dp : DemandF) (hp : HeadwayF) (d : Schedule)
    (r : String) (k : ℕ)
    (hgen : generate_daily_schedule fuel routes day opts dp hp = .ok d)
    (hk : routes.count r = k) (h1 : 1 ≤ k) :
    ∃ d₁ xs,
      generate_daily_schedule fuel [r] day opts dp hp = .ok d₁ ∧
      dictLookup r d₁ = some xs ∧
      dictLookup r d = some ((List.replicate k xs).flatten) ∧
      (d.map Prod.fst).count r = 1 := by
  obtain ⟨hw, hrun⟩ := generate_ok_elim hgen
  have hmem : r ∈ routes := by
    by_contra hnm
    rw [List.count_eq_zero.mpr hnm] at hk
    omega
  obtain ⟨xs, hxs⟩ := runRoutes_ok_loop routes _ _ hrun r hmem
  have hlk := runRoutes_ok_lookup routes _ _ hrun r xs hxs
  rw [dictLookup_dictInit, if_pos hmem, hk] at hlk
  refine ⟨dictAppend (dictInit [r]) r xs, xs, ?_, ?_, ?_, ?_⟩
  · unfold generate_daily_schedule
    rw [if_neg (by omega)]
    simp only [runRoutes, hxs]
  · rw [dictLookup_dictAppend, dictLookup_dictInit]
    simp
  · simpa using hlk
  · have hkeys := runRoutes_ok_keys routes _ _ hrun
    rw [hkeys]
    have hnd : ((dictInit routes).map Prod.fst).Nodup := keys_foldl_nodup routes [] (by simp)
    have hm : r ∈ (dictInit routes).map Prod.fst := by
      unfold dictInit
      rw [keys_foldl_mem]
      exact Or.inr hmem
    exact List.count_eq_one_of_mem hnd hm

/-- Witness for C10: route list `["A", "B", "A"]` with a fixed 6-minute
headway on a 07:00-07:10 window; `A`'s sequence is its single-route schedule
twice. -/
theorem c10_duplicate_routes_witness :
    ∃ d₁ xs,
      generate_daily_schedule 5 ["A"] 0 c10Opts defaultDemandF defaultHeadwayF = .ok d₁ ∧
      dictLookup "A" d₁ = some xs ∧
      dictLookup "A" c10WitSchedule = some ((List.replicate 2 xs).flatten) ∧
      (c10WitSchedule.map Prod.fst).count "A" = 1 :=
  c10_duplicate_routes 5 ["A", "B", "A"] 0 c10Opts defaultDemandF defaultHeadwayF
    c10WitSchedule "A" 2 (by decide) (by decide) (by decide)

end Horarios
